import Mathlib

set_option maxRecDepth 4000

/-!
Shallow embedding of the midna requirement-resolution engine.

Python strings are modelled as lists of characters (`PyStr`).  Pure string
helpers mirror the corresponding Python builtins (`str.strip`,
`str.startswith`, `str.split(sep)[0]`, substring membership).  Each embedded
definition is translated from the named function in the repository source;
runtime-dependent data (the interpreter's module table, filesystem probes,
subprocess output) is passed in as explicit environment parameters.
-/

/-- Python strings, modelled as lists of characters. -/
abbrev PyStr := List Char

/-- Literal conversion from a Lean string to a `PyStr`. -/
def S (s : String) : PyStr := s.toList

/-- Characters removed by Python `str.strip()` (ASCII whitespace). -/
def pySpace (c : Char) : Bool :=
  c = ' ' || c = '\t' || c = '\n' || c = '\r' || c = Char.ofNat 11 || c = Char.ofNat 12

/-- Python `s.strip()`: drop whitespace from both ends. -/
def pstrip (s : PyStr) : PyStr :=
  ((s.dropWhile pySpace).reverse.dropWhile pySpace).reverse

/-- Python `s.startswith(pat)`: `leadsWith pat s` is true when `pat` is an
initial segment of `s`. -/
def leadsWith : PyStr → PyStr → Bool
  | [], _ => true
  | _ :: _, [] => false
  | a :: p, b :: q => a = b && leadsWith p q

/-- Python `s.endswith(pat)`. -/
def trailsWith (pat s : PyStr) : Bool := leadsWith pat.reverse s.reverse

/-- Python `pat in s` (substring membership). -/
def hasSub (pat : PyStr) : PyStr → Bool
  | [] => leadsWith pat []
  | c :: rest => leadsWith pat (c :: rest) || hasSub pat rest

/-- Python `s.split(pat)[0]`: the longest prefix of `s` before the first
occurrence of `pat` (for nonempty `pat`). -/
def beforeFirst (pat : PyStr) : PyStr → PyStr
  | [] => []
  | c :: rest => if leadsWith pat (c :: rest) then [] else c :: beforeFirst pat rest

/-- Python `s.lower()` (ASCII case folding suffices for the inputs at hand). -/
def pyLower (s : PyStr) : PyStr := s.map Char.toLower

/-!
## Specifier parser — `src/midna/parser.py`, `parse_package_name`
-/

/-- The character class `[a-zA-Z0-9_-]` of the name-extraction regex in
`parse_package_name`. -/
def isNameChar (c : Char) : Bool :=
  ('a' ≤ c && c ≤ 'z') || ('A' ≤ c && c ≤ 'Z') || ('0' ≤ c && c ≤ '9') || c = '_' || c = '-'

/-- The fallback separator list of `parse_package_name`, in the order the
Python loop scans it. -/
def pySeparators : List PyStr :=
  [S (">="), S ("<="), S ("=="), S ("!="), S (">"), S ("<"), S ("~=")]

/-- The comment-removal step of `parse_package_name`:
`if "#" in spec: spec = spec.split("#")[0].strip()`. -/
def commentStrip (s : PyStr) : PyStr :=
  if '#' ∈ s then pstrip (s.takeWhile (fun c => c ≠ '#')) else s

/-- `parse_package_name` from `src/midna/parser.py`.  The anchored regex
`^([a-zA-Z0-9_-]+(?:\[[a-zA-Z0-9_,-]+\])?)` followed by `.split("[")[0]`
returns exactly the maximal leading run of name characters whenever that run
is nonempty ('[' is not a name character, so no backtracking can occur);
otherwise the Python loop returns the text before the first occurrence of the
first separator (in list order) present anywhere in the string, stripped, and
if no separator occurs it returns the stripped string. -/
def parse_package_name (spec : PyStr) : PyStr :=
  let s := commentStrip spec
  let pre := s.takeWhile isNameChar
  if pre ≠ [] then pre
  else
    match pySeparators.find? (fun sep => hasSub sep s) with
    | some sep => pstrip (beforeFirst sep s)
    | none => pstrip s

/-- `takeWhile` runs through a fully-satisfying first block. -/
theorem takeWhile_append_all {p : Char → Bool} {l : List Char} (l' : List Char)
    (h : ∀ c ∈ l, p c = true) :
    (l ++ l').takeWhile p = l ++ l'.takeWhile p := by
  induction l with
  | nil => simp
  | cons a t ih =>
    have ha : p a = true := h a (by simp)
    simp only [List.cons_append, List.takeWhile_cons, ha]
    simp [ih (fun c hc => h c (by simp [hc]))]

theorem hash_not_mem_of_nameChars {l : PyStr} (h : ∀ c ∈ l, isNameChar c = true) :
    '#' ∉ l := by
  intro hmem
  have := h '#' hmem
  simp [isNameChar] at this

/-- On a string made of name characters followed by a version suffix, the
comment-removal step is the identity (neither part contains a hash). -/
theorem commentStrip_eq_self {s : PyStr} (h : '#' ∉ s) : commentStrip s = s := by
  simp [commentStrip, h]

/-- Claim C7: name extraction is invariant under appending a version suffix —
for every nonempty name over `[A-Za-z0-9_-]`, parsing `name ++ ">=1.0.0"` and
parsing `name` both return `name`; extras brackets are stripped, and in
particular the two scenario-B equalities hold. -/
theorem C7_specifier_name_invariance (name : PyStr) (h1 : name ≠ [])
    (h2 : ∀ c ∈ name, isNameChar c = true) :
    parse_package_name (name ++ S (">=1.0.0")) = name ∧
    parse_package_name name = name ∧
    parse_package_name (S ("scipy<=1.5.0")) = S ("scipy") ∧
    parse_package_name (S ("pkg[extra]>=1.0")) = S ("pkg") := by
  refine ⟨?_, ?_, by decide, by decide⟩
  · have hh : '#' ∉ name ++ S (">=1.0.0") := by
      intro hmem
      rcases List.mem_append.mp hmem with hm | hm
      · exact hash_not_mem_of_nameChars h2 hm
      · revert hm; decide
    have htw : (name ++ S (">=1.0.0")).takeWhile isNameChar = name := by
      rw [takeWhile_append_all _ h2]
      simp [show (S (">=1.0.0")).takeWhile isNameChar = [] from by decide]
    simp [parse_package_name, commentStrip_eq_self hh, htw, h1]
  · have hh : '#' ∉ name := hash_not_mem_of_nameChars h2
    have htw : name.takeWhile isNameChar = name := by
      have := takeWhile_append_all (p := isNameChar) (l := name) [] h2
      simpa using this
    simp [parse_package_name, commentStrip_eq_self hh, htw, h1]

/-- Witness for C7 at the concrete name `requests`. -/
theorem C7_witness :
    parse_package_name (S ("requests") ++ S (">=1.0.0")) = S ("requests") ∧
    parse_package_name (S ("requests")) = S ("requests") :=
  ⟨(C7_specifier_name_invariance (S ("requests")) (by decide) (by decide)).1,
   (C7_specifier_name_invariance (S ("requests")) (by decide) (by decide)).2.1⟩

/-- Counterexample to claim C8 as stated: on input `"#foo"` there is no name
prefix match and no version-operator separator is present, yet the parser
returns the empty string, not the trimmed input `"#foo"` (the comment-removal
step discards everything after, and including, the hash). -/
theorem C8_counterexample :
    parse_package_name (S ("#foo")) = S ("") ∧
    pstrip (S ("#foo")) = S ("#foo") ∧
    (S ("#foo")).takeWhile isNameChar = [] ∧
    (∀ sep ∈ pySeparators, hasSub sep (S ("#foo")) = false) ∧
    parse_package_name (S ("#foo")) ≠ pstrip (S ("#foo")) := by decide

/-- Claim C8, amended: the parser is total, and in the worst case (no name
prefix match and no separator present, both measured after the
comment-removal step) it returns the comment-stripped, trimmed input; when
the input contains no `#` this is the trimmed input unchanged. -/
theorem C8_parser_total_worst_case (s : PyStr)
    (hpre : (commentStrip s).takeWhile isNameChar = [])
    (hsep : ∀ sep ∈ pySeparators, hasSub sep (commentStrip s) = false) :
    parse_package_name s = pstrip (commentStrip s) ∧
    ('#' ∉ s → parse_package_name s = pstrip s) := by
  have hfind : pySeparators.find? (fun sep => hasSub sep (commentStrip s)) = none :=
    List.find?_eq_none.mpr (fun x hx => by simp [hsep x hx])
  have key : parse_package_name s = pstrip (commentStrip s) := by
    simp only [parse_package_name]
    rw [hpre, hfind]
    simp
  exact ⟨key, fun hh => by rw [key, commentStrip_eq_self hh]⟩

/-- Witness for the amended C8 at the concrete input `"(weird)"`. -/
theorem C8_witness : parse_package_name (S ("(weird)")) = S ("(weird)") := by
  rw [(C8_parser_total_worst_case (S ("(weird)")) (by decide) (by decide)).2 (by decide)]
  decide

/-!
## Manifest reader — `src/midna/parser.py`, `parse_toml_requirements`

The TOML library call is external; what the function consumes is the decoded
document.  `TomlData` models exactly the parts the function reads:
`project.dependencies`, the lists under `project.optional-dependencies` in
group-declaration order, and `build-system.requires` (`none` models an absent
key; entries that are not lists of strings are never extended and are not
modelled).
-/

structure TomlProject where
  dependencies : Option (List PyStr)
  optionalDependencies : List (PyStr × List PyStr)

structure TomlData where
  project : Option TomlProject
  buildRequires : Option (List PyStr)

/-- The version-operator substrings of the manifest post-filter, in source
order. -/
def tomlOps : List PyStr := [S (">="), S ("=="), S ("<="), S ("<"), S (">")]

/-- The post-filter of `parse_toml_requirements`: keep `pip`, `setuptools`,
`wheel`, or any entry containing a version-operator substring. -/
def tomlKeep (pkg : PyStr) : Bool :=
  decide (pkg ∈ [S ("pip"), S ("setuptools"), S ("wheel")]) ||
    tomlOps.any (fun op => hasSub op pkg)

/-- `parse_toml_requirements` from `src/midna/parser.py`: extend `packages`
with `project.dependencies`, then each `project.optional-dependencies` group
in declaration order, then `build-system.requires`, and post-filter with
`tomlKeep`.  (Extending with an absent or empty list is the identity, which
absorbs the Python truthiness guards.) -/
def parse_toml_requirements (d : TomlData) : List PyStr :=
  let packages :=
    (match d.project with
     | none => []
     | some pr =>
       (match pr.dependencies with
        | none => []
        | some deps => deps) ++
       pr.optionalDependencies.foldl (fun acc g => acc ++ g.2) [])
    ++
    (match d.buildRequires with
     | none => []
     | some reqs => reqs)
  packages.filter tomlKeep

/-- Spec-side projection: `project.dependencies`. -/
def projDeps (d : TomlData) : List PyStr :=
  (d.project.map (fun pr => pr.dependencies.getD [])).getD []

/-- Spec-side projection: all optional-dependency groups concatenated in
declaration order. -/
def optDeps (d : TomlData) : List PyStr :=
  (d.project.map (fun pr => (pr.optionalDependencies.map Prod.snd).flatten)).getD []

/-- Spec-side projection: `build-system.requires`. -/
def buildDeps (d : TomlData) : List PyStr :=
  d.buildRequires.getD []

theorem foldl_append_eq_flatten {α : Type} (gs : List (α × List PyStr)) (acc : List PyStr) :
    gs.foldl (fun acc g => acc ++ g.2) acc = acc ++ (gs.map Prod.snd).flatten := by
  induction gs generalizing acc with
  | nil => simp
  | cons g t ih => simp [ih]

/-- The concrete manifest of scenario E: `project.dependencies =
["requests>=2.0"]` plus an unrelated bare string in a read section. -/
def tomlE : TomlData :=
  { project := some { dependencies := some [S ("requests>=2.0")],
                      optionalDependencies := [(S ("docs"), [S ("cli")])] },
    buildRequires := none }

/-- Claim C4: the manifest reader concatenates `project.dependencies`, the
optional-dependency groups in declaration order, then `build-system.requires`,
and keeps an entry iff it is `pip`, `setuptools` or `wheel`, or contains one
of `>=`, `==`, `<=`, `<`, `>`; in the scenario-E manifest only
`requests>=2.0` survives. -/
theorem C4_manifest_reader (d : TomlData) :
    parse_toml_requirements d = (projDeps d ++ optDeps d ++ buildDeps d).filter tomlKeep ∧
    (∀ pkg, pkg ∈ parse_toml_requirements d ↔
      pkg ∈ projDeps d ++ optDeps d ++ buildDeps d ∧
        (pkg = S ("pip") ∨ pkg = S ("setuptools") ∨ pkg = S ("wheel") ∨
          ∃ op ∈ tomlOps, hasSub op pkg = true)) ∧
    parse_toml_requirements tomlE = [S ("requests>=2.0")] := by
  have hconcat : parse_toml_requirements d =
      (projDeps d ++ optDeps d ++ buildDeps d).filter tomlKeep := by
    obtain ⟨proj, build⟩ := d
    cases proj with
    | none =>
      cases build <;> simp [parse_toml_requirements, projDeps, optDeps, buildDeps]
    | some pr =>
      obtain ⟨deps, opts⟩ := pr
      cases deps <;> cases build <;>
        simp [parse_toml_requirements, projDeps, optDeps, buildDeps, foldl_append_eq_flatten]
  refine ⟨hconcat, ?_, by decide⟩
  intro pkg
  rw [hconcat]
  simp only [List.mem_filter, tomlKeep]
  constructor
  · rintro ⟨hmem, hkeep⟩
    refine ⟨hmem, ?_⟩
    rcases Bool.or_eq_true_iff.mp hkeep with hc | hop
    · have h3 : pkg = S ("pip") ∨ pkg = S ("setuptools") ∨ pkg = S ("wheel") := by
        simpa using of_decide_eq_true hc
      rcases h3 with h | h | h
      · exact Or.inl h
      · exact Or.inr (Or.inl h)
      · exact Or.inr (Or.inr (Or.inl h))
    · rcases List.any_eq_true.mp hop with ⟨op, hopmem, hval⟩
      exact Or.inr (Or.inr (Or.inr ⟨op, hopmem, hval⟩))
  · rintro ⟨hmem, hkind⟩
    refine ⟨hmem, ?_⟩
    apply Bool.or_eq_true_iff.mpr
    rcases hkind with h | h | h | ⟨op, hopmem, hval⟩
    · exact Or.inl (by subst h; decide)
    · exact Or.inl (by subst h; decide)
    · exact Or.inl (by subst h; decide)
    · exact Or.inr (List.any_eq_true.mpr ⟨op, hopmem, hval⟩)

/-- Witness for C4: the scenario-E conjunct extracted at the concrete
manifest. -/
theorem C4_witness : parse_toml_requirements tomlE = [S ("requests>=2.0")] :=
  (C4_manifest_reader tomlE).2.2

/-!
## Requirement-file reader — `src/midna/parser.py`, `read_requirements`

The filesystem is an explicit environment: `files` maps a path to the lines
of a text file (`none` when the path does not exist; line contents are given
without their trailing newline, which `strip` discards anyway), and `toml`
maps a path to the decoded manifest (`none` when TOML decoding raises).
`read_requirements` in the source recurses into `-r` includes with no
termination guard, so the embedding takes explicit fuel; `RRes.gasOut` marks
fuel exhaustion, and a run that returns `gasOut` at every fuel level models a
non-terminating run.  Successful results carry the package list together
with the user-visible warning messages printed for missing includes.
-/

/-- Outcome of `read_requirements`: success (packages plus printed warnings),
`FileNotFoundError`, a propagated TOML decode error, or fuel exhaustion. -/
inductive RRes where
  | ok (pkgs : List PyStr) (warns : List PyStr)
  | notFound (path : PyStr)
  | tomlFail (path : PyStr)
  | gasOut
deriving DecidableEq

structure FS where
  files : PyStr → Option (List PyStr)
  toml : PyStr → Option TomlData

/-- `os.path.isabs` on POSIX. -/
def isAbsPath (p : PyStr) : Bool := leadsWith (S ("/")) p

/-- `os.path.join(a, b)` on POSIX (the two-argument form the source uses). -/
def pjoin (a b : PyStr) : PyStr :=
  if isAbsPath b then b
  else if a = [] then b
  else if a.getLast? = some '/' then a ++ b
  else a ++ S ("/") ++ b

/-- `os.path.dirname` on POSIX: the part of the path before the last slash,
with trailing slashes stripped unless the head is all slashes. -/
def dirname (p : PyStr) : PyStr :=
  if '/' ∈ p then
    let head := (p.reverse.dropWhile (fun c => c ≠ '/')).reverse
    if head.all (fun c => c = '/') then head
    else (head.reverse.dropWhile (fun c => c = '/')).reverse
  else []

/-- `os.path.basename` on POSIX: the part of the path after the last slash. -/
def basename (p : PyStr) : PyStr := (p.reverse.takeWhile (fun c => c ≠ '/')).reverse

/-- `file_path.endswith(".toml")`. -/
def endsWithToml (p : PyStr) : Bool := trailsWith (S (".toml")) p

/-- The include path of a stripped `-r ` line, resolved exactly as the source
does: `line[3:].strip()`, made relative to the including file's directory
when not absolute. -/
def incTarget (dir l : PyStr) : PyStr :=
  let inc := pstrip (l.drop 3)
  if isAbsPath inc then inc else pjoin dir inc

/-- The user-visible warning printed for a missing include target. -/
def warnMsg (target : PyStr) : PyStr :=
  S ("WARNING: Included requirements file not found: ") ++ target

/-- One iteration of the line loop of `read_requirements`, parameterised by
the recursive reader `rr` used for `-r` includes.  An error result is
threaded through unchanged (the Python exception propagates), except that a
`FileNotFoundError` from an include is converted into a warning. -/
def lineStep (rr : PyStr → RRes) (dir : PyStr) (acc : RRes) (line : PyStr) : RRes :=
  match acc with
  | .ok pkgs warns =>
    if pstrip line = [] ∨ leadsWith (S ("#")) (pstrip line) = true then .ok pkgs warns
    else if leadsWith (S ("-r ")) (pstrip line) = true then
      match rr (incTarget dir (pstrip line)) with
      | .ok ip iw => .ok (pkgs ++ ip) (warns ++ iw)
      | .notFound _ => .ok pkgs (warns ++ [warnMsg (incTarget dir (pstrip line))])
      | .tomlFail q => .tomlFail q
      | .gasOut => .gasOut
    else if leadsWith (S ("-")) (pstrip line) = true then .ok pkgs warns
    else .ok (pkgs ++ [pstrip line]) warns
  | e => e

/-- `read_requirements` from `src/midna/parser.py`, with explicit recursion
fuel.  A missing path raises `FileNotFoundError`; a `.toml` path is handed to
`parse_toml_requirements` (a decode failure propagates); otherwise the line
loop runs with the recursive reader at one unit less fuel. -/
def read_requirements : Nat → FS → PyStr → RRes
  | 0, _, _ => .gasOut
  | fuel + 1, fs, path =>
    match fs.files path with
    | none => .notFound path
    | some lines =>
      if endsWithToml path then
        match fs.toml path with
        | some d => .ok (parse_toml_requirements d) []
        | none => .tomlFail path
      else
        lines.foldl (lineStep (read_requirements fuel fs) (dirname path)) (.ok [] [])

/-- A line whose stripped form begins with `-r ` (an include directive). -/
def isIncludeLine (line : PyStr) : Bool := leadsWith (S ("-r ")) (pstrip line)

/-- The entry a single non-include line contributes: `none` for blank,
comment and option lines, otherwise the stripped line. -/
def directKeep (line : PyStr) : Option PyStr :=
  if pstrip line = [] ∨ leadsWith (S ("#")) (pstrip line) = true then none
  else if leadsWith (S ("-")) (pstrip line) = true then none
  else some (pstrip line)

/-- The direct (non-include) entries of a line list, in file order. -/
def directEntries (lines : List PyStr) : List PyStr := lines.filterMap directKeep

/-- The warnings produced when every include line of the list has a missing
target. -/
def warnList (dir : PyStr) (lines : List PyStr) : List PyStr :=
  lines.filterMap (fun line =>
    if isIncludeLine line = true then some (warnMsg (incTarget dir (pstrip line)))
    else none)


theorem S_rinc : S ("-r ") = ['-', 'r', ' '] := rfl

theorem S_hash : S ("#") = ['#'] := rfl

theorem S_dash : S ("-") = ['-'] := rfl

theorem leadsWith_cons (a b : Char) (p q : PyStr) :
    leadsWith (a :: p) (b :: q) = (decide (a = b) && leadsWith p q) := rfl

theorem leadsWith_nil_left (s : PyStr) : leadsWith [] s = true := by
  cases s <;> rfl

theorem leadsWith_cons_nil (a : Char) (p : PyStr) : leadsWith (a :: p) [] = false := rfl

/-- `lineStep` on a live accumulator, reorganised by line kind: include lines
dispatch on the recursive reader, all other lines contribute `directKeep`.
(A blank or comment line can never begin with `-r `, so the two views agree.) -/
theorem lineStep_ok (rr : PyStr → RRes) (dir : PyStr) (warns : List PyStr)
    (pkgs : List PyStr) (line : PyStr) :
    lineStep rr dir (.ok pkgs warns) line =
      (if isIncludeLine line = true then
        match rr (incTarget dir (pstrip line)) with
        | .ok ip iw => .ok (pkgs ++ ip) (warns ++ iw)
        | .notFound _ => .ok pkgs (warns ++ [warnMsg (incTarget dir (pstrip line))])
        | .tomlFail q => .tomlFail q
        | .gasOut => .gasOut
      else match directKeep line with
        | some entry => .ok (pkgs ++ [entry]) warns
        | none => .ok pkgs warns) := by
  cases hpa : pstrip line with
  | nil =>
    simp [lineStep, directKeep, isIncludeLine, hpa, S_rinc, leadsWith_cons_nil]
  | cons c rest =>
    simp only [lineStep, directKeep, isIncludeLine, hpa, S_rinc, S_hash, S_dash,
      leadsWith_cons, leadsWith_nil_left, Bool.and_true]
    by_cases hc : ('#' : Char) = c
    · subst hc
      simp
    · by_cases hdash : ('-' : Char) = c
      · subst hdash
        by_cases hr : leadsWith ['r', ' '] rest = true
        · simp [hc, hr]
        · simp [hc, hr]
      · simp [hc, hdash]

/-- An include line begins with `-`, so it never contributes a direct entry. -/
theorem directKeep_of_include {line : PyStr} (h : isIncludeLine line = true) :
    directKeep line = none := by
  rw [isIncludeLine] at h
  cases hpa : pstrip line with
  | nil => rw [hpa, S_rinc, leadsWith_cons_nil] at h; exact absurd h (by decide)
  | cons c rest =>
    rw [hpa, S_rinc, leadsWith_cons] at h
    have hc : ('-' : Char) = c := by
      rcases Bool.and_eq_true_iff.mp h with ⟨h1, _⟩
      exact of_decide_eq_true h1
    subst hc
    rw [directKeep, hpa]
    have h1 : ¬(('-' :: rest : PyStr) = [] ∨ leadsWith (S ("#")) ('-' :: rest) = true) := by
      rw [S_hash, leadsWith_cons]; simp
    rw [if_neg h1, if_pos (by rw [S_dash, leadsWith_cons]; simp [leadsWith_nil_left])]

/-- An error accumulator passes through the line loop unchanged. -/
theorem foldl_lineStep_err (rr : PyStr → RRes) (dir : PyStr) (L : List PyStr)
    (e : RRes) (he : ∀ pk wn, e ≠ .ok pk wn) :
    L.foldl (lineStep rr dir) e = e := by
  induction L with
  | nil => rfl
  | cons a t ih =>
    have hstep : lineStep rr dir e a = e := by
      cases e with
      | ok pk wn => exact absurd rfl (he pk wn)
      | notFound q => rfl
      | tomlFail q => rfl
      | gasOut => rfl
    rw [List.foldl_cons, hstep, ih]

/-- The line loop over a list whose include lines all have missing targets:
it returns the direct entries plus one warning per include line, appended to
the incoming accumulator. -/
theorem foldl_lineStep_direct (rr : PyStr → RRes) (dir : PyStr) (L : List PyStr)
    (h : ∀ line ∈ L, isIncludeLine line = true →
      rr (incTarget dir (pstrip line)) = .notFound (incTarget dir (pstrip line))) :
    ∀ p w, L.foldl (lineStep rr dir) (.ok p w) =
      .ok (p ++ directEntries L) (w ++ warnList dir L) := by
  induction L with
  | nil => intro p w; simp [directEntries, warnList]
  | cons a t ih =>
    intro p w
    have ht : ∀ line ∈ t, isIncludeLine line = true →
        rr (incTarget dir (pstrip line)) = .notFound (incTarget dir (pstrip line)) :=
      fun line hl => h line (List.mem_cons_of_mem a hl)
    rw [List.foldl_cons, lineStep_ok]
    by_cases hinc : isIncludeLine a = true
    · rw [if_pos hinc, h a (List.mem_cons_self a t) hinc, ih ht]
      simp [directEntries, warnList, List.filterMap_cons, directKeep_of_include hinc, hinc]
    · rw [if_neg hinc]
      cases hdk : directKeep a with
      | none =>
        rw [ih ht]
        simp [directEntries, warnList, List.filterMap_cons, hdk, hinc]
      | some entry =>
        rw [ih ht]
        simp [directEntries, warnList, List.filterMap_cons, hdk, hinc]

/-- The line loop never produces a `FileNotFoundError`: an include's
`notFound` is converted into a warning, and errors only pass through. -/
theorem foldl_lineStep_not_notFound (rr : PyStr → RRes) (dir : PyStr) (L : List PyStr)
    (acc : RRes) (hacc : ∀ q, acc ≠ .notFound q) (q : PyStr) :
    L.foldl (lineStep rr dir) acc ≠ .notFound q := by
  induction L generalizing acc with
  | nil => exact hacc q
  | cons a t ih =>
    rw [List.foldl_cons]
    apply ih
    intro q'
    cases acc with
    | ok p w =>
      rw [lineStep_ok]
      by_cases hinc : isIncludeLine a = true
      · rw [if_pos hinc]
        cases rr (incTarget dir (pstrip a)) <;> simp
      · rw [if_neg hinc]
        cases directKeep a <;> simp
    | notFound r => exact absurd rfl (hacc r)
    | tomlFail r => simp [lineStep]
    | gasOut => simp [lineStep]

/-- If no include of the list can raise a TOML decode error, the line loop
ends in success or fuel exhaustion. -/
theorem foldl_lineStep_ok_or_gas (rr : PyStr → RRes) (dir : PyStr) (L : List PyStr)
    (h : ∀ line ∈ L, isIncludeLine line = true →
      ∀ q, rr (incTarget dir (pstrip line)) ≠ .tomlFail q) :
    ∀ p w, (∃ p2 w2, L.foldl (lineStep rr dir) (.ok p w) = .ok p2 w2) ∨
      L.foldl (lineStep rr dir) (.ok p w) = .gasOut := by
  induction L with
  | nil => intro p w; exact Or.inl ⟨p, w, rfl⟩
  | cons a t ih =>
    intro p w
    have ht : ∀ line ∈ t, isIncludeLine line = true →
        ∀ q, rr (incTarget dir (pstrip line)) ≠ .tomlFail q :=
      fun line hl => h line (List.mem_cons_of_mem a hl)
    rw [List.foldl_cons, lineStep_ok]
    by_cases hinc : isIncludeLine a = true
    · rw [if_pos hinc]
      cases hrr : rr (incTarget dir (pstrip a)) with
      | ok ip iw => exact ih ht (p ++ ip) (w ++ iw)
      | notFound r => exact ih ht p (w ++ [warnMsg (incTarget dir (pstrip a))])
      | tomlFail r => exact absurd hrr (h a (List.mem_cons_self a t) hinc r)
      | gasOut =>
        exact Or.inr (foldl_lineStep_err rr dir t .gasOut (fun pk wn => by simp))
    · rw [if_neg hinc]
      cases directKeep a with
      | none => exact ih ht p w
      | some entry => exact ih ht (p ++ [entry]) w

/-- If no include of the list exhausts the fuel, the line loop does not
exhaust the fuel. -/
theorem foldl_lineStep_no_gas (rr : PyStr → RRes) (dir : PyStr) (L : List PyStr)
    (acc : RRes) (hacc : acc ≠ .gasOut)
    (h : ∀ line ∈ L, isIncludeLine line = true →
      rr (incTarget dir (pstrip line)) ≠ .gasOut) :
    L.foldl (lineStep rr dir) acc ≠ .gasOut := by
  induction L generalizing acc with
  | nil => exact hacc
  | cons a t ih =>
    rw [List.foldl_cons]
    apply ih
    · cases acc with
      | ok p w =>
        rw [lineStep_ok]
        by_cases hinc : isIncludeLine a = true
        · rw [if_pos hinc]
          cases hrr : rr (incTarget dir (pstrip a)) with
          | ok ip iw => simp
          | notFound r => simp
          | tomlFail r => simp
          | gasOut => exact absurd hrr (h a (List.mem_cons_self a t) hinc)
        · rw [if_neg hinc]
          cases directKeep a <;> simp
      | notFound r => simp [lineStep]
      | tomlFail r => simp [lineStep]
      | gasOut => exact absurd rfl hacc
    · exact fun line hl => h line (List.mem_cons_of_mem a hl)

/-- Unfolding `read_requirements` on an existing plain-text file. -/
theorem read_requirements_text (fuel : Nat) (fs : FS) (path : PyStr)
    (lines : List PyStr) (hf : fs.files path = some lines)
    (ht : endsWithToml path = false) :
    read_requirements (fuel + 1) fs path =
      lines.foldl (lineStep (read_requirements fuel fs) (dirname path)) (.ok [] []) := by
  simp [read_requirements, hf, ht]

/-- Unfolding `read_requirements` on a missing path. -/
theorem read_requirements_missing (fuel : Nat) (fs : FS) (path : PyStr)
    (hf : fs.files path = none) :
    read_requirements (fuel + 1) fs path = .notFound path := by
  simp [read_requirements, hf]

theorem warnList_eq_nil {dir : PyStr} {L : List PyStr}
    (h : ∀ l ∈ L, isIncludeLine l = false) : warnList dir L = [] := by
  induction L with
  | nil => rfl
  | cons a t ih =>
    rw [warnList, List.filterMap_cons]
    rw [show (if isIncludeLine a = true then some (warnMsg (incTarget dir (pstrip a)))
        else none) = none from by simp [h a (List.mem_cons_self a t)]]
    exact ih (fun l hl => h l (List.mem_cons_of_mem a hl))

/-- Reading an existing plain-text file with no include lines yields exactly
its direct entries and no warnings. -/
theorem read_requirements_direct (fuel : Nat) (fs : FS) (path : PyStr)
    (lines : List PyStr) (hf : fs.files path = some lines)
    (ht : endsWithToml path = false) (hni : ∀ l ∈ lines, isIncludeLine l = false) :
    read_requirements (fuel + 1) fs path = .ok (directEntries lines) [] := by
  rw [read_requirements_text fuel fs path lines hf ht]
  rw [foldl_lineStep_direct _ _ _ (fun l hl hi => absurd hi (by simp [hni l hl])) [] []]
  simp [warnList_eq_nil hni]

/-- The concrete requirement file of scenario A. -/
def fsA : FS :=
  { files := fun p =>
      if p = S ("requirements.txt") then
        some [S ("requests>=2.25.0"), S ("numpy>=1.20.0"), S ("# comment"), S (""),
          S ("pandas>=1.3.0")]
      else none,
    toml := fun _ => none }

/-- Claim C2: on a plain-text file with no `-r` lines the reader returns
exactly the stripped non-blank, non-comment, non-option lines in file order;
across one level of `-r` inclusion the included entries appear at the
position of the `-r` line; and scenario A evaluates as stated. -/
theorem C2_reader_round_trip :
    (∀ fuel fs path lines, fs.files path = some lines → endsWithToml path = false →
      (∀ l ∈ lines, isIncludeLine l = false) →
      read_requirements (fuel + 1) fs path = .ok (directEntries lines) []) ∧
    (∀ fuel fs path pre rline post incLines,
      fs.files path = some (pre ++ rline :: post) → endsWithToml path = false →
      (∀ l ∈ pre, isIncludeLine l = false) → (∀ l ∈ post, isIncludeLine l = false) →
      isIncludeLine rline = true →
      fs.files (incTarget (dirname path) (pstrip rline)) = some incLines →
      endsWithToml (incTarget (dirname path) (pstrip rline)) = false →
      (∀ l ∈ incLines, isIncludeLine l = false) →
      read_requirements (fuel + 2) fs path =
        .ok (directEntries pre ++ directEntries incLines ++ directEntries post) []) ∧
    read_requirements 1 fsA (S ("requirements.txt")) =
      .ok [S ("requests>=2.25.0"), S ("numpy>=1.20.0"), S ("pandas>=1.3.0")] [] := by
  refine ⟨fun fuel fs path lines hf ht hni =>
    read_requirements_direct fuel fs path lines hf ht hni, ?_, by decide⟩
  intro fuel fs path pre rline post incLines hf ht hpre hpost hinc hft htt hincl
  have h1 := foldl_lineStep_direct (read_requirements (fuel + 1) fs) (dirname path) pre
    (fun l hl hi => absurd hi (by simp [hpre l hl])) [] []
  rw [warnList_eq_nil hpre] at h1
  simp only [List.nil_append] at h1
  have h2 : read_requirements (fuel + 1) fs (incTarget (dirname path) (pstrip rline)) =
      .ok (directEntries incLines) [] :=
    read_requirements_direct fuel fs _ incLines hft htt hincl
  have h3 : lineStep (read_requirements (fuel + 1) fs) (dirname path)
      (.ok (directEntries pre) []) rline =
      .ok (directEntries pre ++ directEntries incLines) [] := by
    rw [lineStep_ok, if_pos hinc, h2]
    simp
  have h4 := foldl_lineStep_direct (read_requirements (fuel + 1) fs) (dirname path) post
    (fun l hl hi => absurd hi (by simp [hpost l hl]))
    (directEntries pre ++ directEntries incLines) []
  rw [warnList_eq_nil hpost] at h4
  simp only [List.append_nil] at h4
  show read_requirements (fuel + 1 + 1) fs path = _
  rw [read_requirements_text (fuel + 1) fs path _ hf ht, List.foldl_append,
    List.foldl_cons, h1, h3, h4]

/-- Witness for C2 at the scenario-A file. -/
theorem C2_witness :
    read_requirements 3 fsA (S ("requirements.txt")) =
      .ok [S ("requests>=2.25.0"), S ("numpy>=1.20.0"), S ("pandas>=1.3.0")] [] := by
  have h := C2_reader_round_trip.1 2 fsA (S ("requirements.txt"))
    [S ("requests>=2.25.0"), S ("numpy>=1.20.0"), S ("# comment"), S (""),
      S ("pandas>=1.3.0")] (by decide) (by decide) (by decide)
  exact h.trans (by decide)

/-- Claim C3: the reader fails with `FileNotFoundError` exactly when the
top-level path does not exist; a missing `-r` include target is swallowed
with one warning, and the enclosing file's remaining direct entries are
still returned. -/
theorem C3_reader_error_handling (fuel : Nat) (fs : FS) (path : PyStr) :
    ((∃ q, read_requirements (fuel + 1) fs path = .notFound q) ↔ fs.files path = none) ∧
    (fs.files path = none → read_requirements (fuel + 1) fs path = .notFound path) ∧
    (∀ pre line post, fs.files path = some (pre ++ line :: post) →
      endsWithToml path = false →
      (∀ l ∈ pre, isIncludeLine l = false) → (∀ l ∈ post, isIncludeLine l = false) →
      isIncludeLine line = true →
      fs.files (incTarget (dirname path) (pstrip line)) = none →
      read_requirements (fuel + 2) fs path =
        .ok (directEntries pre ++ directEntries post)
          [warnMsg (incTarget (dirname path) (pstrip line))]) := by
  refine ⟨⟨?_, fun hf => ⟨path, read_requirements_missing fuel fs path hf⟩⟩,
    fun hf => read_requirements_missing fuel fs path hf, ?_⟩
  · rintro ⟨q, hq⟩
    cases hfe : fs.files path with
    | none => rfl
    | some lines =>
      exfalso
      by_cases ht : endsWithToml path = true
      · rw [show read_requirements (fuel + 1) fs path =
            (match fs.toml path with
             | some d => RRes.ok (parse_toml_requirements d) []
             | none => RRes.tomlFail path) from by simp [read_requirements, hfe, ht]] at hq
        cases htp : fs.toml path with
        | none => rw [htp] at hq; exact absurd hq (by simp)
        | some d => rw [htp] at hq; exact absurd hq (by simp)
      · rw [read_requirements_text fuel fs path lines hfe (by simpa using ht)] at hq
        exact foldl_lineStep_not_notFound _ _ _ _ (fun r => by simp) q hq
  · intro pre line post hf ht hpre hpost hinc hmiss
    have hincs : ∀ l ∈ pre ++ line :: post, isIncludeLine l = true →
        read_requirements (fuel + 1) fs (incTarget (dirname path) (pstrip l)) =
          .notFound (incTarget (dirname path) (pstrip l)) := by
      intro l hl hi
      rcases List.mem_append.mp hl with hl' | hl'
      · exact absurd hi (by simp [hpre l hl'])
      · rcases List.mem_cons.mp hl' with rfl | hl''
        · exact read_requirements_missing fuel fs _ hmiss
        · exact absurd hi (by simp [hpost l hl''])
    have h1 := foldl_lineStep_direct (read_requirements (fuel + 1) fs) (dirname path)
      (pre ++ line :: post) hincs [] []
    have hde : directEntries (pre ++ line :: post) =
        directEntries pre ++ directEntries post := by
      rw [directEntries, List.filterMap_append, List.filterMap_cons,
        directKeep_of_include hinc]
      rfl
    have hwl : warnList (dirname path) (pre ++ line :: post) =
        [warnMsg (incTarget (dirname path) (pstrip line))] := by
      rw [warnList, List.filterMap_append, List.filterMap_cons, if_pos hinc]
      have e1 : warnList (dirname path) pre = [] := warnList_eq_nil hpre
      have e2 : warnList (dirname path) post = [] := warnList_eq_nil hpost
      rw [warnList] at e1 e2
      rw [e1, e2]
      rfl
    rw [hde, hwl] at h1
    simp only [List.nil_append] at h1
    show read_requirements (fuel + 1 + 1) fs path = _
    rw [read_requirements_text (fuel + 1) fs path _ hf (by simpa using ht), h1]

/-- The concrete scenario-D filesystem: a requirement file referencing a
missing include. -/
def fsD : FS :=
  { files := fun p =>
      if p = S ("reqs.txt") then
        some [S ("requests>=2.25.0"), S ("-r missing.txt"), S ("pandas>=1.3.0")]
      else none,
    toml := fun _ => none }

/-- Witness for C3: the top-level `notFound` conjunct at a missing path, and
the missing-include conjunct at the scenario-D file. -/
theorem C3_witness :
    read_requirements 1 fsD (S ("nope.txt")) = .notFound (S ("nope.txt")) ∧
    read_requirements 2 fsD (S ("reqs.txt")) =
      .ok [S ("requests>=2.25.0"), S ("pandas>=1.3.0")]
        [warnMsg (S ("missing.txt"))] := by
  constructor
  · exact (C3_reader_error_handling 0 fsD (S ("nope.txt"))).2.1 (by decide)
  · have h := (C3_reader_error_handling 0 fsD (S ("reqs.txt"))).2.2
      [S ("requests>=2.25.0")] (S ("-r missing.txt")) [S ("pandas>=1.3.0")]
      (by decide) (by decide) (by decide) (by decide) (by decide) (by decide)
    exact h.trans (by decide)

/-!
## Termination behaviour of the recursive include resolution (claim C9)

`includeEdge fs p q` holds when file `p` contains an include line whose
resolved target is `q`; accessibility of `path` under the reversed edge
relation states that every include chain descending from `path` is finite,
which is the acyclicity (well-foundedness) of the include graph below
`path`.  `liveCycle` describes a set of files each of which reaches an
include pointing back into the set — the include lines before it, if any,
name missing files, so the cycle edge is actually followed.
-/

def includeEdge (fs : FS) (p q : PyStr) : Prop :=
  ∃ lines, fs.files p = some lines ∧ endsWithToml p = false ∧
    ∃ line ∈ lines, isIncludeLine line = true ∧ incTarget (dirname p) (pstrip line) = q

def liveCycle (fs : FS) (Spred : PyStr → Prop) (p : PyStr) : Prop :=
  ∃ pre line post, fs.files p = some (pre ++ line :: post) ∧ endsWithToml p = false ∧
    (∀ l ∈ pre, isIncludeLine l = true →
      fs.files (incTarget (dirname p) (pstrip l)) = none) ∧
    isIncludeLine line = true ∧ Spred (incTarget (dirname p) (pstrip line))

/-- Finitely many include lines admit one fuel bound good for all of them. -/
theorem agg_fuel (fs : FS) (d : PyStr) (L : List PyStr)
    (h : ∀ line ∈ L, isIncludeLine line = true →
      ∃ n, ∀ m, n ≤ m → read_requirements m fs (incTarget d (pstrip line)) ≠ .gasOut) :
    ∃ N, ∀ m, N ≤ m → ∀ line ∈ L, isIncludeLine line = true →
      read_requirements m fs (incTarget d (pstrip line)) ≠ .gasOut := by
  induction L with
  | nil => exact ⟨0, fun m _ line hl => absurd hl (List.not_mem_nil line)⟩
  | cons a t ih =>
    obtain ⟨Nt, hNt⟩ := ih (fun l hl => h l (List.mem_cons_of_mem a hl))
    by_cases ha : isIncludeLine a = true
    · obtain ⟨na, hna⟩ := h a (List.mem_cons_self a t) ha
      refine ⟨max na Nt, fun m hm line hl hi => ?_⟩
      rcases List.mem_cons.mp hl with rfl | hl'
      · exact hna m (le_trans (le_max_left na Nt) hm)
      · exact hNt m (le_trans (le_max_right na Nt) hm) line hl' hi
    · refine ⟨Nt, fun m hm line hl hi => ?_⟩
      rcases List.mem_cons.mp hl with rfl | hl'
      · exact absurd hi ha
      · exact hNt m hm line hl' hi

/-- When the include graph descending from `path` is well-founded, the
reader reaches a fixed answer: some fuel level suffices and every larger
level agrees in not exhausting the fuel. -/
theorem read_terminates_of_acc (fs : FS) (path : PyStr)
    (h : Acc (fun q p => includeEdge fs p q) path) :
    ∃ n, ∀ m, n ≤ m → read_requirements m fs path ≠ .gasOut := by
  induction h with
  | intro p hpred ih =>
    cases hfe : fs.files p with
    | none =>
      refine ⟨1, fun m hm => ?_⟩
      obtain ⟨m', rfl⟩ : ∃ m', m = m' + 1 := ⟨m - 1, by omega⟩
      rw [read_requirements_missing m' fs p hfe]
      simp
    | some lines =>
      by_cases ht : endsWithToml p = true
      · refine ⟨1, fun m hm => ?_⟩
        obtain ⟨m', rfl⟩ : ∃ m', m = m' + 1 := ⟨m - 1, by omega⟩
        rw [show read_requirements (m' + 1) fs p =
            (match fs.toml p with
             | some d => RRes.ok (parse_toml_requirements d) []
             | none => RRes.tomlFail p) from by simp [read_requirements, hfe, ht]]
        cases fs.toml p <;> simp
      · have htargets : ∀ line ∈ lines, isIncludeLine line = true →
            ∃ n, ∀ m, n ≤ m →
              read_requirements m fs (incTarget (dirname p) (pstrip line)) ≠ .gasOut := by
          intro line hl hi
          exact ih _ ⟨lines, hfe, by simpa using ht, line, hl, hi, rfl⟩
        obtain ⟨N, hN⟩ := agg_fuel fs (dirname p) lines htargets
        refine ⟨N + 1, fun m hm => ?_⟩
        obtain ⟨m', rfl⟩ : ∃ m', m = m' + 1 := ⟨m - 1, by omega⟩
        rw [read_requirements_text m' fs p lines hfe (by simpa using ht)]
        exact foldl_lineStep_no_gas _ _ _ _ (by simp)
          (fun line hl hi => hN m' (by omega) line hl hi)

/-- A file on a live include cycle exhausts every fuel level: the model of
unbounded recursion. -/
theorem read_gas_of_cycle (fs : FS) (Spred : PyStr → Prop)
    (hstep : ∀ p, Spred p → liveCycle fs Spred p) (fuel : Nat) :
    ∀ p, Spred p → read_requirements fuel fs p = .gasOut := by
  induction fuel with
  | zero => intro p _; rfl
  | succ fuel ih =>
    intro p hp
    obtain ⟨pre, line, post, hfe, ht, hpre, hinc, hnext⟩ := hstep p hp
    rw [read_requirements_text fuel fs p _ hfe ht, List.foldl_append, List.foldl_cons]
    have hC : ∀ l ∈ pre, isIncludeLine l = true →
        ∀ q, read_requirements fuel fs (incTarget (dirname p) (pstrip l)) ≠ .tomlFail q := by
      intro l hl hi q
      cases fuel with
      | zero => simp [read_requirements]
      | succ f => rw [read_requirements_missing f fs _ (hpre l hl hi)]; simp
    rcases foldl_lineStep_ok_or_gas _ _ pre hC [] [] with ⟨p2, w2, hok⟩ | hgas
    · rw [hok, lineStep_ok, if_pos hinc, ih _ hnext]
      exact foldl_lineStep_err _ _ post .gasOut (fun pk wn => by simp)
    · rw [hgas]
      exact foldl_lineStep_err _ _ post .gasOut (fun pk wn => by simp)

/-- Claim C9, amended: the reader has no cycle detection and unbounded
depth — whenever the include graph reachable from a file is well-founded
(in particular acyclic and finite) the read terminates (some fuel bound
suffices for every larger fuel), while a file that reaches an include chain
cycling back to itself (directly or transitively), with no earlier failing
include aborting the parse, exhausts every fuel level, i.e. does not
terminate. -/
theorem C9_include_recursion (fs : FS) (path : PyStr) :
    (Acc (fun q p => includeEdge fs p q) path →
      ∃ n, ∀ m, n ≤ m → read_requirements m fs path ≠ .gasOut) ∧
    (∀ Spred : PyStr → Prop, Spred path →
      (∀ p, Spred p → liveCycle fs Spred p) →
      ∀ fuel, read_requirements fuel fs path = .gasOut) :=
  ⟨fun h => read_terminates_of_acc fs path h,
   fun Spred hp hstep fuel => read_gas_of_cycle fs Spred hstep fuel path hp⟩

/-- A file that directly includes itself — after a first include whose
target is a manifest that fails to decode. -/
def fs9 : FS :=
  { files := fun p =>
      if p = S ("a.txt") then some [S ("-r bad.toml"), S ("-r a.txt")]
      else if p = S ("bad.toml") then some []
      else none,
    toml := fun _ => none }

/-- Counterexample to claim C9 as stated: `a.txt` directly includes itself
(`-r a.txt` is one of its lines, resolving back to `a.txt`), yet the read
terminates — the earlier include of the undecodable manifest `bad.toml`
raises before the self-include is ever reached, so the run ends with a
propagated decode error at fuel 3 rather than recursing without bound. -/
theorem C9_counterexample :
    fs9.files (S ("a.txt")) = some [S ("-r bad.toml"), S ("-r a.txt")] ∧
    isIncludeLine (S ("-r a.txt")) = true ∧
    incTarget (dirname (S ("a.txt"))) (pstrip (S ("-r a.txt"))) = S ("a.txt") ∧
    read_requirements 3 fs9 (S ("a.txt")) = .tomlFail (S ("bad.toml")) ∧
    read_requirements 3 fs9 (S ("a.txt")) ≠ .gasOut := by decide

/-- A plain self-including file (live one-element cycle). -/
def fsSelf : FS :=
  { files := fun p => if p = S ("a.txt") then some [S ("-r a.txt")] else none,
    toml := fun _ => none }

/-- A single file with no includes: its include graph is trivially
well-founded. -/
def fsAcy : FS :=
  { files := fun p => if p = S ("b.txt") then some [S ("numpy")] else none,
    toml := fun _ => none }

/-- Witness for the amended C9: the live self-include cycle exhausts fuel 5,
and the include-free file admits a terminating fuel bound. -/
theorem C9_witness :
    read_requirements 5 fsSelf (S ("a.txt")) = .gasOut ∧
    (∃ n, ∀ m, n ≤ m → read_requirements m fsAcy (S ("b.txt")) ≠ .gasOut) := by
  constructor
  · refine (C9_include_recursion fsSelf (S ("a.txt"))).2
      (fun p => p = S ("a.txt")) rfl ?_ 5
    intro p hp
    subst hp
    refine ⟨[], S ("-r a.txt"), [], by decide, by decide, ?_, by decide, by decide⟩
    intro l hl
    exact absurd hl (List.not_mem_nil l)
  · apply (C9_include_recursion fsAcy (S ("b.txt"))).1
    constructor
    intro q hq
    exfalso
    obtain ⟨lines, hf, ht2, line, hl, hinc, htgt⟩ := hq
    have h0 : fsAcy.files (S ("b.txt")) = some [S ("numpy")] := by decide
    rw [h0] at hf
    have hlines : lines = [S ("numpy")] := (Option.some_inj.mp hf).symm
    rw [hlines] at hl
    have hline : line = S ("numpy") := by simpa using hl
    rw [hline] at hinc
    exact absurd hinc (by decide)

/-!
## Module classifier — `src/midna/package_classifier.py`

`ClsEnv` carries the runtime-dependent data: `stdlibRt` is the
`is_stdlib_package` test (the process-dependent `STDLIB_MODULES` set built
from `sys.builtin_module_names` and `sys.modules`, plus the builtin check),
`probe` is the filesystem probe of `is_project_package` over the four
candidate locations under the project root, and `versionOf` is
`get_package_version`.  Python's `sorted(set(...))` is modelled by
deduplication followed by an insertion sort on the same order.
-/

structure ClsEnv where
  stdlibRt : PyStr → Bool
  probe : PyStr → Bool
  versionOf : PyStr → PyStr

def IGNORED_MODULES : List PyStr :=
  [S ("test"), S ("tests"), S ("testing"), S ("examples"), S ("setup"),
   S ("__main__"), S ("__init__"), S ("conftest")]

def is_stdlib_package (e : ClsEnv) (n : PyStr) : Bool := e.stdlibRt n

def is_project_package (e : ClsEnv) (n : PyStr) : Bool :=
  decide (n ∈ IGNORED_MODULES) || e.probe n

/-- The skip test of the classifier loop:
`if not package or package.startswith(".")`. -/
def invalidName (p : PyStr) : Bool := decide (p = []) || leadsWith (S (".")) p

/-- `package.split(".")[0].lower()`. -/
def baseName (p : PyStr) : PyStr := pyLower (p.takeWhile (fun c => c ≠ '.'))

/-- Lexicographic comparison of strings by code point (Python `<`). -/
def strLt : PyStr → PyStr → Bool
  | [], [] => false
  | [], _ :: _ => true
  | _ :: _, [] => false
  | a :: p, b :: q => a < b || (a = b && strLt p q)

def strLe (p q : PyStr) : Bool := strLt p q || decide (p = q)

/-- Python tuple comparison on `(name, version)` pairs. -/
def pairLe (x y : PyStr × PyStr) : Bool :=
  strLt x.1 y.1 || (decide (x.1 = y.1) && strLe x.2 y.2)

def insertLe {α : Type} (le : α → α → Bool) (x : α) : List α → List α
  | [] => [x]
  | y :: t => if le x y then x :: y :: t else y :: insertLe le x t

def insSort {α : Type} (le : α → α → Bool) : List α → List α
  | [] => []
  | x :: t => insertLe le x (insSort le t)

/-- Python `sorted(set(l))`: deduplicate, then sort. -/
def pySortedSet {α : Type} [DecidableEq α] (le : α → α → Bool) (l : List α) : List α :=
  insSort le l.dedup

theorem length_insertLe {α : Type} (le : α → α → Bool) (x : α) (l : List α) :
    (insertLe le x l).length = l.length + 1 := by
  induction l with
  | nil => rfl
  | cons y t ih =>
    by_cases h : le x y = true <;> simp [insertLe, h, ih]

theorem length_insSort {α : Type} (le : α → α → Bool) (l : List α) :
    (insSort le l).length = l.length := by
  induction l with
  | nil => rfl
  | cons x t ih => simp [insSort, length_insertLe, ih]

theorem mem_insertLe {α : Type} (le : α → α → Bool) (x y : α) (l : List α) :
    y ∈ insertLe le x l ↔ y = x ∨ y ∈ l := by
  induction l with
  | nil => simp [insertLe]
  | cons z t ih =>
    by_cases h : le x z = true
    · simp [insertLe, h, ih]
    · simp [insertLe, h, ih]
      tauto

theorem mem_insSort {α : Type} (le : α → α → Bool) (x : α) (l : List α) :
    x ∈ insSort le l ↔ x ∈ l := by
  induction l with
  | nil => simp [insSort]
  | cons z t ih => simp [insSort, mem_insertLe, ih]

theorem length_pySortedSet_of_nodup {α : Type} [DecidableEq α] (le : α → α → Bool)
    {l : List α} (h : l.Nodup) : (pySortedSet le l).length = l.length := by
  rw [pySortedSet, length_insSort, List.dedup_eq_self.mpr h]

theorem mem_pySortedSet {α : Type} [DecidableEq α] (le : α → α → Bool)
    (l : List α) (x : α) : x ∈ pySortedSet le l ↔ x ∈ l := by
  rw [pySortedSet, mem_insSort, List.mem_dedup]

/-- One iteration of the classifier loop in `classify_packages`. -/
def classifyStep (e : ClsEnv)
    (acc : List PyStr × List PyStr × List (PyStr × PyStr)) (package : PyStr) :
    List PyStr × List PyStr × List (PyStr × PyStr) :=
  if invalidName package = true then acc
  else if is_stdlib_package e (baseName package) = true then
    (acc.1 ++ [package], acc.2.1, acc.2.2)
  else if is_project_package e (baseName package) = true then
    (acc.1, acc.2.1 ++ [package], acc.2.2)
  else
    (acc.1, acc.2.1, acc.2.2 ++ [(baseName package, e.versionOf (baseName package))])

/-- `classify_packages` from `src/midna/package_classifier.py`: the loop over
the input names followed by `sorted(set(...))` on each of the three lists. -/
def classify_packages (e : ClsEnv) (packages : List PyStr) :
    List PyStr × List PyStr × List (PyStr × PyStr) :=
  let trip := packages.foldl (classifyStep e) ([], [], [])
  (pySortedSet strLe trip.1, pySortedSet strLe trip.2.1, pySortedSet pairLe trip.2.2)

def validNames (packages : List PyStr) : List PyStr :=
  packages.filter (fun p => !invalidName p)

def stdPred (e : ClsEnv) (p : PyStr) : Bool := is_stdlib_package e (baseName p)

def projPred (e : ClsEnv) (p : PyStr) : Bool :=
  !is_stdlib_package e (baseName p) && is_project_package e (baseName p)

def thirdPred (e : ClsEnv) (p : PyStr) : Bool :=
  !is_stdlib_package e (baseName p) && !is_project_package e (baseName p)

def stdlibIns (e : ClsEnv) (packages : List PyStr) : List PyStr :=
  (validNames packages).filter (stdPred e)

def projIns (e : ClsEnv) (packages : List PyStr) : List PyStr :=
  (validNames packages).filter (projPred e)

def thirdIns (e : ClsEnv) (packages : List PyStr) : List (PyStr × PyStr) :=
  ((validNames packages).filter (thirdPred e)).map
    (fun p => (baseName p, e.versionOf (baseName p)))

/-- The classifier loop computes the three insertion-order lists described by
the filter projections. -/
theorem classify_foldl_eq (e : ClsEnv) (packages : List PyStr) :
    ∀ a b c, packages.foldl (classifyStep e) (a, b, c) =
      (a ++ stdlibIns e packages, b ++ projIns e packages, c ++ thirdIns e packages) := by
  induction packages with
  | nil =>
    intro a b c
    simp [stdlibIns, projIns, thirdIns, validNames]
  | cons p t ih =>
    intro a b c
    rw [List.foldl_cons]
    by_cases h1 : invalidName p = true
    · rw [show classifyStep e (a, b, c) p = (a, b, c) from by simp [classifyStep, h1]]
      rw [ih a b c]
      simp [stdlibIns, projIns, thirdIns, validNames, List.filter_cons, h1]
    · by_cases h2 : is_stdlib_package e (baseName p) = true
      · rw [show classifyStep e (a, b, c) p = (a ++ [p], b, c) from by
          simp [classifyStep, h1, h2]]
        rw [ih (a ++ [p]) b c]
        simp [stdlibIns, projIns, thirdIns, validNames, stdPred, projPred, thirdPred,
          List.filter_cons, h1, h2]
      · by_cases h3 : is_project_package e (baseName p) = true
        · rw [show classifyStep e (a, b, c) p = (a, b ++ [p], c) from by
            simp [classifyStep, h1, h2, h3]]
          rw [ih a (b ++ [p]) c]
          simp [stdlibIns, projIns, thirdIns, validNames, stdPred, projPred, thirdPred,
            List.filter_cons, h1, h2, h3]
        · rw [show classifyStep e (a, b, c) p =
              (a, b, c ++ [(baseName p, e.versionOf (baseName p))]) from by
            simp [classifyStep, h1, h2, h3]]
          rw [ih a b (c ++ [(baseName p, e.versionOf (baseName p))])]
          simp [stdlibIns, projIns, thirdIns, validNames, stdPred, projPred, thirdPred,
            List.filter_cons, h1, h2, h3]

theorem classify_packages_eq (e : ClsEnv) (packages : List PyStr) :
    classify_packages e packages =
      (pySortedSet strLe (stdlibIns e packages),
       pySortedSet strLe (projIns e packages),
       pySortedSet pairLe (thirdIns e packages)) := by
  simp only [classify_packages]
  rw [classify_foldl_eq e packages [] [] []]
  simp

theorem three_way_split (e : ClsEnv) (l : List PyStr) :
    (l.filter (stdPred e)).length + (l.filter (projPred e)).length +
      (l.filter (thirdPred e)).length = l.length := by
  induction l with
  | nil => rfl
  | cons a t ih =>
    by_cases h2 : is_stdlib_package e (baseName a) = true
    · have ha1 : stdPred e a = true := h2
      have ha2 : projPred e a = false := by simp [projPred, h2]
      have ha3 : thirdPred e a = false := by simp [thirdPred, h2]
      simp [List.filter_cons, ha1, ha2, ha3]
      omega
    · have hb2 : is_stdlib_package e (baseName a) = false := by simpa using h2
      by_cases h3 : is_project_package e (baseName a) = true
      · have ha1 : stdPred e a = false := hb2
        have ha2 : projPred e a = true := by simp [projPred, hb2, h3]
        have ha3 : thirdPred e a = false := by simp [thirdPred, h3]
        simp [List.filter_cons, ha1, ha2, ha3]
        omega
      · have hb3 : is_project_package e (baseName a) = false := by simpa using h3
        have ha1 : stdPred e a = false := hb2
        have ha2 : projPred e a = false := by simp [projPred, hb3]
        have ha3 : thirdPred e a = true := by simp [thirdPred, hb2, hb3]
        simp [List.filter_cons, ha1, ha2, ha3]
        omega

theorem length_filter_add_length_not {α : Type} (p : α → Bool) (l : List α) :
    (l.filter p).length + (l.filter (fun x => !p x)).length = l.length := by
  induction l with
  | nil => rfl
  | cons a t ih =>
    by_cases h : p a = true <;> simp [List.filter_cons, h] <;> omega

/-- A classifier environment in which nothing is a runtime stdlib module, no
project probe succeeds, and no version resolves (a fresh interpreter in an
empty project directory). -/
def clsEnvX : ClsEnv :=
  { stdlibRt := fun _ => false, probe := fun _ => false, versionOf := fun _ => [] }

/-- Counterexample to claim C5 as stated: the input set `{"NumPy", "numpy"}`
has two distinct names, neither dropped, both classified third-party; the
third-party list stores the lower-cased base name, so the two entries
collapse under `sorted(set(...))` and the counting equation fails
(`0 + 0 + 1 + 0 ≠ 2`). -/
theorem C5_counterexample :
    ([S ("NumPy"), S ("numpy")] : List PyStr).Nodup ∧
    (([S ("NumPy"), S ("numpy")] : List PyStr).filter invalidName).length = 0 ∧
    (classify_packages clsEnvX [S ("NumPy"), S ("numpy")]).2.2 = [(S ("numpy"), [])] ∧
    ¬((classify_packages clsEnvX [S ("NumPy"), S ("numpy")]).1.length +
      (classify_packages clsEnvX [S ("NumPy"), S ("numpy")]).2.1.length +
      (classify_packages clsEnvX [S ("NumPy"), S ("numpy")]).2.2.length +
      (([S ("NumPy"), S ("numpy")] : List PyStr).filter invalidName).length =
      ([S ("NumPy"), S ("numpy")] : List PyStr).length) := by decide

/-- Claim C5, amended: for a duplicate-free input whose third-party-classified
names have pairwise distinct lower-cased base names, the classifier output
satisfies `len(stdlib) + len(project) + len(thirdParty) + |dropped| =
|input|`, where the dropped names are exactly those that are empty or
dot-prefixed; the stdlib and project lists are disjoint (the third-party list
holds `(base name, version)` pairs, a different shape from both); and every
input name is dropped or accounted for in exactly the list its branch
selects.  Without the distinctness hypothesis the third-party entries of
names sharing a base name collapse, and the sum falls short. -/
theorem C5_classifier_partition (e : ClsEnv) (packages : List PyStr)
    (hnd : packages.Nodup)
    (hinj : ∀ p ∈ packages, ∀ q ∈ packages, thirdPred e p = true → thirdPred e q = true →
      baseName p = baseName q → p = q) :
    (classify_packages e packages).1.length + (classify_packages e packages).2.1.length +
      (classify_packages e packages).2.2.length +
      (packages.filter invalidName).length = packages.length ∧
    (∀ p, p ∈ (classify_packages e packages).1 → p ∉ (classify_packages e packages).2.1) ∧
    (∀ p ∈ packages, invalidName p = true ∨
      p ∈ (classify_packages e packages).1 ∨ p ∈ (classify_packages e packages).2.1 ∨
      (baseName p, e.versionOf (baseName p)) ∈ (classify_packages e packages).2.2) := by
  rw [classify_packages_eq]
  have hvnd : (validNames packages).Nodup := List.Nodup.filter _ hnd
  have hstd : (stdlibIns e packages).Nodup := List.Nodup.filter _ hvnd
  have hproj : (projIns e packages).Nodup := List.Nodup.filter _ hvnd
  have hthird : (thirdIns e packages).Nodup := by
    apply List.Nodup.map_on
    · intro x hx y hy hxy
      have hx' := List.mem_filter.mp hx
      have hy' := List.mem_filter.mp hy
      have hxp := List.mem_filter.mp hx'.1
      have hyp := List.mem_filter.mp hy'.1
      exact hinj x hxp.1 y hyp.1 hx'.2 hy'.2 (congrArg Prod.fst hxy)
    · exact List.Nodup.filter _ hvnd
  refine ⟨?_, ?_, ?_⟩
  · rw [length_pySortedSet_of_nodup strLe hstd,
      length_pySortedSet_of_nodup strLe hproj,
      length_pySortedSet_of_nodup pairLe hthird]
    have h3 := three_way_split e (validNames packages)
    have hsplit := length_filter_add_length_not invalidName packages
    have hlen3 : (thirdIns e packages).length =
        ((validNames packages).filter (thirdPred e)).length := by
      rw [thirdIns, List.length_map]
    rw [stdlibIns, projIns] at *
    rw [hlen3]
    rw [validNames] at *
    omega
  · intro p hp hq
    have hp' := (mem_pySortedSet strLe _ p).mp hp
    have hq' := (mem_pySortedSet strLe _ p).mp hq
    have h1 := (List.mem_filter.mp hp').2
    have h2 := (List.mem_filter.mp hq').2
    rw [stdPred] at h1
    rw [projPred, h1] at h2
    simp at h2
  · intro p hp
    by_cases h1 : invalidName p = true
    · exact Or.inl h1
    · have hv : p ∈ validNames packages :=
        List.mem_filter.mpr ⟨hp, by simp [h1]⟩
      by_cases h2 : is_stdlib_package e (baseName p) = true
      · refine Or.inr (Or.inl ((mem_pySortedSet strLe _ p).mpr ?_))
        exact List.mem_filter.mpr ⟨hv, h2⟩
      · have hb2 : is_stdlib_package e (baseName p) = false := by simpa using h2
        by_cases h3 : is_project_package e (baseName p) = true
        · refine Or.inr (Or.inr (Or.inl ((mem_pySortedSet strLe _ p).mpr ?_)))
          exact List.mem_filter.mpr ⟨hv, by simp [projPred, hb2, h3]⟩
        · have hb3 : is_project_package e (baseName p) = false := by simpa using h3
          refine Or.inr (Or.inr (Or.inr ((mem_pySortedSet pairLe _ _).mpr ?_)))
          exact List.mem_map.mpr ⟨p,
            List.mem_filter.mpr ⟨hv, by simp [thirdPred, hb2, hb3]⟩, rfl⟩

/-- A classifier environment distinguishing one stdlib name, one project
name and one third-party name. -/
def clsEnvW : ClsEnv :=
  { stdlibRt := fun n => decide (n = S ("os")),
    probe := fun n => decide (n = S ("mypkg")),
    versionOf := fun _ => [] }

/-- Witness for the amended C5 at a concrete three-name input. -/
theorem C5_witness :
    (classify_packages clsEnvW [S ("os"), S ("mypkg"), S ("requests")]).1.length +
      (classify_packages clsEnvW [S ("os"), S ("mypkg"), S ("requests")]).2.1.length +
      (classify_packages clsEnvW [S ("os"), S ("mypkg"), S ("requests")]).2.2.length +
      (([S ("os"), S ("mypkg"), S ("requests")] : List PyStr).filter invalidName).length =
      ([S ("os"), S ("mypkg"), S ("requests")] : List PyStr).length :=
  (C5_classifier_partition clsEnvW [S ("os"), S ("mypkg"), S ("requests")]
    (by decide) (by decide)).1

/-!
## Discovery — `src/midna/discovery.py`

`DiscEnv` is the filesystem-dependent input of the orchestrator: `listing`
is the root directory's entries in the order the directory iteration yields
them (used by `find_requirements_files`; glob results are modelled in
listing order), `fs` backs the requirement-file reader, `pyFiles` is the
result of the `find_python_files` walk, `importsOf` is the per-file AST
extraction of imported names, and `cls` backs the module classifier.
-/

/-- The curated standard-library name set of `filter_standard_library` in
`src/midna/discovery.py`, in source order. -/
def stdlib_modules : List PyStr :=
  [S ("os"), S ("sys"), S ("json"), S ("re"), S ("math"), S ("random"),
   S ("datetime"), S ("time"), S ("pathlib"), S ("collections"), S ("itertools"),
   S ("functools"), S ("operator"), S ("typing"), S ("dataclasses"), S ("enum"),
   S ("abc"), S ("contextlib"), S ("logging"), S ("argparse"), S ("configparser"),
   S ("subprocess"), S ("shutil"), S ("tempfile"), S ("glob"), S ("fnmatch"),
   S ("linecache"), S ("pickle"), S ("copy"), S ("pprint"), S ("textwrap"),
   S ("string"), S ("io"), S ("codecs"), S ("locale"), S ("calendar"),
   S ("hashlib"), S ("hmac"), S ("secrets"), S ("uuid"), S ("urllib"), S ("http"),
   S ("email"), S ("html"), S ("xml"), S ("csv"), S ("sqlite3"), S ("zlib"),
   S ("gzip"), S ("bz2"), S ("lzma"), S ("zipfile"), S ("tarfile"),
   S ("threading"), S ("multiprocessing"), S ("concurrent"), S ("queue"),
   S ("socket"), S ("ssl"), S ("asyncio"), S ("unittest"), S ("doctest"),
   S ("trace"), S ("pdb"), S ("profile"), S ("warnings"), S ("inspect"),
   S ("dis"), S ("importlib"), S ("pkgutil"), S ("platform"), S ("ctypes"),
   S ("struct"), S ("array"), S ("weakref"), S ("gc"), S ("types")]

/-- `filter_standard_library`: drop curated stdlib names and names starting
with an underscore. -/
def filter_standard_library (imports : List PyStr) : List PyStr :=
  imports.filter (fun imp =>
    !decide (imp ∈ stdlib_modules) && !leadsWith (S ("_")) imp)

/-- The glob pattern `requirements*.txt` of `find_requirements_files`: a
fixed stem, a fixed suffix, and no overlap between them. -/
def globMatchReqTxt (name : PyStr) : Bool :=
  leadsWith (S ("requirements")) name && trailsWith (S (".txt")) name &&
    decide (16 ≤ name.length)

/-- The non-glob patterns after `requirements.txt` and `requirements*.txt`,
in source order. -/
def reqExactPatterns : List PyStr :=
  [S ("pyproject.toml"), S ("setup.py"), S ("Pipfile"), S ("environment.yml"),
   S ("conda.yml")]

/-- `str(dir_path / name)` for a relative `name` (pathlib drops a leading
`./`). -/
def pathJoin (dir name : PyStr) : PyStr :=
  if dir = S (".") then name else dir ++ S ("/") ++ name

/-- `find_requirements_files` from `src/midna/discovery.py`: the patterns in
their fixed order — the exact canonical name, the glob (matches in listing
order), then the remaining exact names. -/
def find_requirements_files (listing : List PyStr) (dir : PyStr) : List PyStr :=
  (if S ("requirements.txt") ∈ listing then [pathJoin dir (S ("requirements.txt"))]
   else []) ++
  (listing.filter globMatchReqTxt).map (pathJoin dir) ++
  (reqExactPatterns.filter (fun n => decide (n ∈ listing))).map (pathJoin dir)

/-- The preferred-file loop of `auto_discover_requirements`: the first found
file whose basename CONTAINS `"requirements.txt"` as a substring, else the
first found file. -/
def selectPreferred (found : List PyStr) : Option PyStr :=
  match found.find? (fun f => hasSub (S ("requirements.txt")) (basename f)) with
  | some f => some f
  | none => found.head?

structure DiscEnv where
  listing : List PyStr
  fs : FS
  pyFiles : List PyStr
  importsOf : PyStr → List PyStr
  cls : ClsEnv

/-- `analyze_project_imports`: union of the per-file import sets (modelled as
a deduplicated list), then the stdlib filter. -/
def analyze_project_imports (env : DiscEnv) : List PyStr :=
  filter_standard_library ((env.pyFiles.map env.importsOf).flatten.dedup)

/-- Strategies 2 and 3 of the orchestrator: classify the discovered imports
when there are any, otherwise report no packages. -/
def discoverStrategy2 (env : DiscEnv) : List (PyStr × PyStr) × PyStr :=
  if analyze_project_imports env = [] then ([], S ("no packages found"))
  else ((classify_packages env.cls (analyze_project_imports env)).2.2,
    S ("import analysis"))

/-- `auto_discover_requirements` from `src/midna/discovery.py`.  The result
is `none` only when the reader exhausts its fuel (the Python run would be
stuck inside the recursion); every other read outcome is total: a
successful parse short-circuits with a file provenance, any raised error is
caught and discovery falls through to import analysis. -/
def auto_discover_requirements (fuel : Nat) (env : DiscEnv) (dir : PyStr) :
    Option (List (PyStr × PyStr) × PyStr) :=
  match selectPreferred (find_requirements_files env.listing dir) with
  | some pf =>
    match read_requirements fuel env.fs pf with
    | .ok pkgs _ => some (pkgs.map (fun p => (p, ([] : PyStr))), S ("requirements file: ") ++ pf)
    | .notFound _ => some (discoverStrategy2 env)
    | .tomlFail _ => some (discoverStrategy2 env)
    | .gasOut => none
  | none => some (discoverStrategy2 env)

/-- Counterexample to claim C6 as stated: a directory listing with the two
glob matches `requirements-dev.txt` and `requirementsrequirements.txt`
contains no exact canonical match, so the claim selects the first candidate
(`requirements-dev.txt`); the code instead selects the first candidate whose
basename contains `"requirements.txt"` as a substring, which is the second
candidate. -/
theorem C6_counterexample :
    find_requirements_files
        [S ("requirements-dev.txt"), S ("requirementsrequirements.txt")] (S (".")) =
      [S ("requirements-dev.txt"), S ("requirementsrequirements.txt")] ∧
    (∀ f ∈ find_requirements_files
        [S ("requirements-dev.txt"), S ("requirementsrequirements.txt")] (S (".")),
      basename f ≠ S ("requirements.txt")) ∧
    selectPreferred (find_requirements_files
        [S ("requirements-dev.txt"), S ("requirementsrequirements.txt")] (S ("."))) =
      some (S ("requirementsrequirements.txt")) ∧
    (find_requirements_files
        [S ("requirements-dev.txt"), S ("requirementsrequirements.txt")] (S ("."))).head? =
      some (S ("requirements-dev.txt")) ∧
    some (S ("requirementsrequirements.txt")) ≠
      (some (S ("requirements-dev.txt")) : Option PyStr) := by decide

/-- Claim C6, amended: among the found candidates the orchestrator selects
the first whose basename contains the canonical name `requirements.txt` as a
substring — in particular an exact `requirements.txt` in the root directory,
which always heads the discovery order, is selected when present — and when
no candidate's basename contains it, the first candidate in discovery order
is selected. -/
theorem C6_preferred_file_selection (listing : List PyStr) :
    (S ("requirements.txt") ∈ listing →
      selectPreferred (find_requirements_files listing (S ("."))) =
        some (S ("requirements.txt"))) ∧
    (∀ found : List PyStr,
      (∀ f ∈ found, hasSub (S ("requirements.txt")) (basename f) = false) →
      selectPreferred found = found.head?) ∧
    (∀ found f,
      found.find? (fun g => hasSub (S ("requirements.txt")) (basename g)) = some f →
      selectPreferred found = some f) := by
  refine ⟨?_, ?_, ?_⟩
  · intro h
    have hfind : find_requirements_files listing (S (".")) =
        S ("requirements.txt") ::
          ((listing.filter globMatchReqTxt).map (pathJoin (S ("."))) ++
            (reqExactPatterns.filter (fun n => decide (n ∈ listing))).map
              (pathJoin (S (".")))) := by
      rw [find_requirements_files, if_pos h]
      simp [pathJoin]
    rw [selectPreferred, hfind, List.find?_cons]
    rw [show hasSub (S ("requirements.txt")) (basename (S ("requirements.txt"))) = true
      from by decide]
  · intro found h
    rw [selectPreferred, List.find?_eq_none.mpr (fun f hf => by simp [h f hf])]
  · intro found f h
    rw [selectPreferred, h]

/-- Witness for the amended C6 at a two-entry listing. -/
theorem C6_witness :
    selectPreferred (find_requirements_files
        [S ("requirements.txt"), S ("pyproject.toml")] (S ("."))) =
      some (S ("requirements.txt")) :=
  (C6_preferred_file_selection [S ("requirements.txt"), S ("pyproject.toml")]).1
    (by decide)

/-- A root with no requirement files, one Python source file, and a single
stdlib-only import. -/
def discEnvC : DiscEnv :=
  { listing := [],
    fs := { files := fun _ => none, toml := fun _ => none },
    pyFiles := [S ("main.py")],
    importsOf := fun f => if f = S ("main.py") then [S ("os")] else [],
    cls := clsEnvX }

/-- Counterexample to claim C1 as stated: strategy 1 yields nothing (no
candidate files) and the directory does contain source files, so the Source
Scanner runs; its only import is filtered as stdlib, the Module Classifier
never runs, and the orchestrator returns provenance `"no packages found"` —
not the claimed thirdParty list with provenance `"import analysis"`. -/
theorem C1_counterexample :
    find_requirements_files discEnvC.listing (S (".")) = [] ∧
    discEnvC.pyFiles ≠ [] ∧
    analyze_project_imports discEnvC = [] ∧
    auto_discover_requirements 1 discEnvC (S (".")) =
      some ([], S ("no packages found")) ∧
    S ("no packages found") ≠ S ("import analysis") := by decide

/-- Claim C1, amended: the orchestrator tries its strategies in order and
short-circuits on first success — if a candidate file is selected and parses,
its entries are returned as `(entry, "")` pairs with the file-path
provenance; if the selected file's read raises (missing or undecodable), or
no candidate exists, strategy 2 runs; strategy 2 returns the classifier's
thirdParty list with provenance `"import analysis"` only when the
stdlib-filtered import set is non-empty, and otherwise (in particular for a
directory with no requirement files and no source files) the result is
`([], "no packages found")`. -/
theorem C1_orchestrator (fuel : Nat) (env : DiscEnv) (dir : PyStr) :
    (∀ pf pkgs w, selectPreferred (find_requirements_files env.listing dir) = some pf →
      read_requirements fuel env.fs pf = .ok pkgs w →
      auto_discover_requirements fuel env dir =
        some (pkgs.map (fun p => (p, ([] : PyStr))), S ("requirements file: ") ++ pf)) ∧
    (∀ pf q, selectPreferred (find_requirements_files env.listing dir) = some pf →
      (read_requirements fuel env.fs pf = .notFound q ∨
        read_requirements fuel env.fs pf = .tomlFail q) →
      auto_discover_requirements fuel env dir = some (discoverStrategy2 env)) ∧
    (selectPreferred (find_requirements_files env.listing dir) = none →
      auto_discover_requirements fuel env dir = some (discoverStrategy2 env)) ∧
    (analyze_project_imports env ≠ [] →
      discoverStrategy2 env =
        ((classify_packages env.cls (analyze_project_imports env)).2.2,
          S ("import analysis"))) ∧
    (analyze_project_imports env = [] →
      discoverStrategy2 env = ([], S ("no packages found"))) ∧
    (env.pyFiles = [] → analyze_project_imports env = [] ∧
      (selectPreferred (find_requirements_files env.listing dir) = none →
        auto_discover_requirements fuel env dir =
          some ([], S ("no packages found")))) := by
  refine ⟨?_, ?_, ?_, ?_, ?_, ?_⟩
  · intro pf pkgs w h1 h2
    simp [auto_discover_requirements, h1, h2]
  · intro pf q h1 h2
    rcases h2 with h2 | h2 <;> simp [auto_discover_requirements, h1, h2]
  · intro h1
    simp [auto_discover_requirements, h1]
  · intro h
    rw [discoverStrategy2, if_neg h]
  · intro h
    rw [discoverStrategy2, if_pos h]
  · intro h
    have hempty : analyze_project_imports env = [] := by
      rw [analyze_project_imports, h]
      rfl
    refine ⟨hempty, fun hsel => ?_⟩
    rw [auto_discover_requirements, hsel, discoverStrategy2, if_pos hempty]

/-- An empty root: no requirement files and no source files (scenario C). -/
def discEnvW : DiscEnv :=
  { listing := [],
    fs := { files := fun _ => none, toml := fun _ => none },
    pyFiles := [],
    importsOf := fun _ => [],
    cls := clsEnvX }

/-- Witness for the amended C1 at the empty directory of scenario C. -/
theorem C1_witness :
    auto_discover_requirements 1 discEnvW (S (".")) =
      some ([], S ("no packages found")) :=
  ((C1_orchestrator 1 discEnvW (S ("."))).2.2.2.2.2 (by decide)).2 (by decide)

/-!
## Installed-package checker — `src/midna/checker.py`

The pip subprocess is external; its freeze-format output lines are the
environment.  A line containing `==` contributes its lower-cased name part
to the installed set; `check_installed_packages` then partitions its input
by membership of the lower-cased parsed name.
-/

/-- The installed-name set extracted from `pip list --format=freeze` output
lines. -/
def pipInstalledNames (installedRaw : List PyStr) : List PyStr :=
  (installedRaw.filter (fun l => hasSub (S ("==")) l)).map
    (fun l => pyLower (beforeFirst (S ("==")) l))

/-- `check_installed_packages` from `src/midna/checker.py`: the loop that
appends each input to `already_installed` when its lower-cased parsed name is
installed, and to `missing_packages` otherwise. -/
def check_installed_packages (installedRaw : List PyStr) (packages : List PyStr) :
    List PyStr × List PyStr :=
  packages.foldl (fun acc p =>
    if pyLower (parse_package_name p) ∈ pipInstalledNames installedRaw
    then (acc.1, acc.2 ++ [p]) else (acc.1 ++ [p], acc.2)) ([], [])

def installedTest (installedRaw : List PyStr) (p : PyStr) : Bool :=
  decide (pyLower (parse_package_name p) ∈ pipInstalledNames installedRaw)

theorem check_foldl_eq (raw : List PyStr) (packages : List PyStr) :
    ∀ a b, packages.foldl (fun acc p =>
        if pyLower (parse_package_name p) ∈ pipInstalledNames raw
        then (acc.1, acc.2 ++ [p]) else (acc.1 ++ [p], acc.2)) (a, b) =
      (a ++ packages.filter (fun p => !installedTest raw p),
       b ++ packages.filter (installedTest raw)) := by
  induction packages with
  | nil => intro a b; simp [installedTest]
  | cons p t ih =>
    intro a b
    rw [List.foldl_cons]
    by_cases h : pyLower (parse_package_name p) ∈ pipInstalledNames raw
    · rw [if_pos h, ih]
      simp [List.filter_cons, installedTest, h]
    · rw [if_neg h, ih]
      simp [List.filter_cons, installedTest, h]

/-- Claim C10: the checker returns `(missing, already_installed)` — the two
complementary, order-preserving filters of the input, a partition in the
multiset sense — and an element lands in `already_installed` exactly when
its lower-cased parsed name equals some lower-cased installed name from the
freeze output. -/
theorem C10_checker_partition (raw packages : List PyStr) :
    (check_installed_packages raw packages).1 =
      packages.filter (fun p => !installedTest raw p) ∧
    (check_installed_packages raw packages).2 =
      packages.filter (installedTest raw) ∧
    ((check_installed_packages raw packages).1 ++
      (check_installed_packages raw packages).2).Perm packages ∧
    (∀ p, p ∈ (check_installed_packages raw packages).2 ↔
      p ∈ packages ∧ pyLower (parse_package_name p) ∈ pipInstalledNames raw) ∧
    (∀ p, p ∈ (check_installed_packages raw packages).1 ↔
      p ∈ packages ∧ pyLower (parse_package_name p) ∉ pipInstalledNames raw) ∧
    (∀ p, (check_installed_packages raw packages).1.countP (fun x => decide (x = p)) +
      (check_installed_packages raw packages).2.countP (fun x => decide (x = p)) =
      packages.countP (fun x => decide (x = p))) := by
  have h0 := check_foldl_eq raw packages [] []
  simp only [List.nil_append] at h0
  have h1 : (check_installed_packages raw packages).1 =
      packages.filter (fun p => !installedTest raw p) := by
    rw [check_installed_packages, h0]
  have h2 : (check_installed_packages raw packages).2 =
      packages.filter (installedTest raw) := by
    rw [check_installed_packages, h0]
  have hperm : ((check_installed_packages raw packages).1 ++
      (check_installed_packages raw packages).2).Perm packages := by
    rw [h1, h2]
    exact (List.perm_append_comm).trans (List.filter_append_perm _ packages)
  refine ⟨h1, h2, hperm, ?_, ?_, ?_⟩
  · intro p
    rw [h2, List.mem_filter]
    simp [installedTest]
  · intro p
    rw [h1, List.mem_filter]
    simp [installedTest]
  · intro p
    have := hperm.countP_eq (fun x => decide (x = p))
    rw [List.countP_append] at this
    exact this

/-- Witness for C10 at a concrete freeze output and input list. -/
theorem C10_witness :
    check_installed_packages
        [S ("requests==2.31.0"), S ("numpy @ file"), S ("Flask==2.0")]
        [S ("requests>=2.0"), S ("scipy"), S ("flask")] =
      ([S ("scipy")], [S ("requests>=2.0"), S ("flask")]) := by
  have h := C10_checker_partition
    [S ("requests==2.31.0"), S ("numpy @ file"), S ("Flask==2.0")]
    [S ("requests>=2.0"), S ("scipy"), S ("flask")]
  refine Prod.ext ?_ ?_
  · exact h.1.trans (by decide)
  · exact h.2.1.trans (by decide)
